import Mathlib

/-!
Shallow embedding of the objstore repository: the GCS-backed Bucket
(src/providers/gcs/gcs.go) and the filesystem provider exercised by
src/providers/filesystem/filesystem_test.go.

Strings are modelled as lists of characters (Go strings are byte slices;
all keys in play are ASCII).  Go errors are modelled by the inductive
type GError; a nil error is Option.none.
-/

set_option autoImplicit false

/-- Str models a Go string as a list of characters. -/
abbrev Str := List Char

/-- IterOptionType models the Go type objstore.IterOptionType, which is an
int.  Modelled from the spec: the objstore root package is not under src/;
the spec describes a small enumerated set of option types checked against a
per-backend supported set. -/
abbrev IterOptionType := Nat

/-- Recursive iteration option type (objstore.Recursive, iota value 0). -/
def RecursiveType : IterOptionType := 0

/-- UpdatedAt iteration option type (objstore.UpdatedAt, iota value 1). -/
def UpdatedAtType : IterOptionType := 1

/-- IterOption models objstore.IterOption: an option value carrying its
type tag.  Modelled from the spec: flags are applied to a mutable options
accumulator, each flag independently checked against a per-backend
supported-options set. -/
structure IterOption where
  optType : IterOptionType
  deriving DecidableEq, Repr

/-- WithRecursiveIter is the exported Recursive option value. -/
def withRecursiveIter : IterOption := ⟨RecursiveType⟩

/-- WithUpdatedAt is the exported UpdatedAt option value. -/
def withUpdatedAt : IterOption := ⟨UpdatedAtType⟩

/-- IterParams models objstore.IterParams, the accumulator the options are
applied to.  Modelled from the spec (objstore root package not under src/). -/
structure IterParams where
  recursive : Bool := false
  lastModified : Bool := false
  deriving DecidableEq, Repr

/-- ApplyIterOption applies one option flag to the accumulator.  Modelled
from the spec: each known flag sets its field. -/
def applyIterOption (p : IterParams) (o : IterOption) : IterParams :=
  if o.optType = RecursiveType then { p with recursive := true }
  else if o.optType = UpdatedAtType then { p with lastModified := true }
  else p

/-- ApplyIterOptions folds every option into an empty accumulator.
Modelled from the spec: each known flag sets its field. -/
def applyIterOptions (options : List IterOption) : IterParams :=
  options.foldl applyIterOption {}

/-- GError models the Go error values that appear in the code under
verification.  A nil Go error is represented by Option.none around this
type.  optionNotSupported t models fmt.Errorf wrapping
objstore.ErrOptionNotSupported together with the offending option type;
canceled models context.Canceled surfaced verbatim; objectNotExist models
the GCS SDK sentinel storage.ErrObjectNotExist; notFound models the
filesystem provider's not-found error; the remaining constructors model
backend and callback failures carrying an opaque code. -/
inductive GError where
  | canceled
  | objectNotExist
  | notFound
  | optionNotSupported (t : IterOptionType)
  | missingBucketName
  | credentialsError
  | clientError
  | callbackErr (code : Nat)
  | ioErr (code : Nat)
  deriving DecidableEq, Repr

/-- IsObjNotFoundErr models gcs.Bucket.IsObjNotFoundErr: errors.Is against
storage.ErrObjectNotExist.  No error value in this development wraps the
sentinel, so errors.Is reduces to matching the constructor. -/
def isObjNotFoundErr : GError → Bool
  | .objectNotExist => true
  | _ => false

/-- SupportedIterOptions of the GCS bucket: objstore.Recursive and
objstore.UpdatedAt (gcs.go line 94). -/
def gcsSupportedIterOptions : List IterOptionType := [RecursiveType, UpdatedAtType]

/-- FindUnsupported models the option-validation loop at the top of
gcs.Bucket.IterWithAttributes (gcs.go lines 99 to 103): the type of the
first option not contained in SupportedIterOptions, if any. -/
def findUnsupported (supported : List IterOptionType) : List IterOption → Option IterOptionType
  | [] => none
  | o :: rest =>
    if o.optType ∈ supported then findUnsupported supported rest
    else some o.optType

/-- GcsObject is one object stored in the (external) GCS bucket: its full
name and its Updated timestamp.  Modelled from the spec: the GCS service
itself is an external collaborator. -/
structure GcsObject where
  name : Str
  updated : Int
  content : Str := []
  deriving DecidableEq, Repr

/-- GcsAttrs models the fields of storage.ObjectAttrs that gcs.go reads:
Name, Prefix and Updated.  Object entries carry the name; rolled-up
synthetic directory entries carry only the field modelling Prefix. -/
structure GcsAttrs where
  name : Str
  pfx : Str
  updated : Int
  deriving DecidableEq, Repr

/-- IterObjectAttributes models objstore.IterObjectAttributes: the value
handed to an iteration callback, a key name plus the optional last-modified
timestamp set via SetLastModified.  Modelled from the spec (objstore root
package not under src/). -/
structure IterObjectAttributes where
  name : Str
  lastModified : Option Int := none
  deriving DecidableEq, Repr

/-- ObjectAttributes models objstore.ObjectAttributes: size and optional
last-modified timestamp; the default value has size 0 and no timestamp. -/
structure ObjectAttributes where
  size : Int := 0
  lastModified : Option Int := none
  deriving DecidableEq, Repr

/-- TrimSuffixSlash models strings.TrimSuffix(s, DirDelim): removes one
trailing slash when present. -/
def trimSuffixSlash (s : Str) : Str :=
  if s.getLast? = some '/' then s.dropLast else s

/-- NormalizeDir models the directory normalisation in IterWithAttributes
(gcs.go lines 107 to 109): a non-empty dir always ends with exactly one
appended slash after trimming a trailing one. -/
def normalizeDir (dir : Str) : Str :=
  if dir = [] then [] else trimSuffixSlash dir ++ ['/']

/-- SegUptoSlash? returns the leading segment of a name remainder up to and
including the first slash, or none when the remainder contains no slash.
Used to model GCS delimiter roll-up. -/
def segUptoSlash? : Str → Option Str
  | [] => none
  | c :: cs => if c = '/' then some ['/'] else (segUptoSlash? cs).map (c :: ·)

/-- RollUp models the object listing the external GCS service returns for a
query with the slash delimiter.  Modelled from the spec: each object under
the prefix whose remainder holds no slash is returned as a real object
entry; a remainder with a slash is rolled up into one synthetic directory
entry per distinct sub-directory (prefix + name + separator). -/
def rollUp (pre : Str) (seen : List Str) : List GcsObject → List GcsAttrs
  | [] => []
  | o :: rest =>
    if pre.isPrefixOf o.name then
      match segUptoSlash? (o.name.drop pre.length) with
      | none => ⟨o.name, [], o.updated⟩ :: rollUp pre seen rest
      | some seg =>
        let marker := pre ++ seg
        if marker ∈ seen then rollUp pre seen rest
        else ⟨[], marker, 0⟩ :: rollUp pre (marker :: seen) rest
    else rollUp pre seen rest

/-- QueryObjects models bkt.Objects with a storage.Query of the given
Prefix and Delimiter (gcs.go lines 119 to 122).  Modelled from the spec:
an empty delimiter lists every object under the prefix; the slash delimiter
rolls sub-directories up into synthetic entries. -/
def queryObjects (objs : List GcsObject) (pre delim : Str) : List GcsAttrs :=
  if delim = [] then
    (objs.filter (fun o => pre.isPrefixOf o.name)).map (fun o => ⟨o.name, [], o.updated⟩)
  else
    rollUp pre [] objs

/-- ToIterAttrs models the body of the iteration loop building the callback
argument (gcs.go lines 137 to 140): Name is attrs.Prefix + attrs.Name, and
SetLastModified(attrs.Updated) runs only when LastModified was requested. -/
def toIterAttrs (params : IterParams) (e : GcsAttrs) : IterObjectAttributes :=
  { name := e.pfx ++ e.name
    lastModified := if params.lastModified then some e.updated else none }

/-- RunCbs feeds a list of values to a callback in order, stopping at the
first callback error; it returns the exact sequence of callback invocations
together with the final error (none on clean completion). -/
def runCbs {α : Type} (f : α → Option GError) : List α → List α × Option GError
  | [] => ([], none)
  | a :: rest =>
    match f a with
    | some err => ([a], some err)
    | none =>
      let r := runCbs f rest
      (a :: r.1, r.2)

/-- GcsIterWithAttributes models gcs.Bucket.IterWithAttributes (gcs.go
lines 98 to 145).  The cancelled flag models whether the context is already
cancelled; it is checked at the top of every loop round, hence before the
first entry is produced.  The result is the exact sequence of callback
invocations together with the returned error (none for nil). -/
def gcsIterWithAttributes (objs : List GcsObject) (cancelled : Bool) (dir : Str)
    (f : IterObjectAttributes → Option GError) (options : List IterOption) :
    List IterObjectAttributes × Option GError :=
  match findUnsupported gcsSupportedIterOptions options with
  | some t => ([], some (.optionNotSupported t))
  | none =>
    let dirN := normalizeDir dir
    let params := applyIterOptions options
    let delim := if params.recursive then [] else ['/']
    if cancelled then ([], some .canceled)
    else runCbs f ((queryObjects objs dirN delim).map (toIterAttrs params))

/-- FilterRecursiveOpts models the option-filtering loop in gcs.Bucket.Iter
(gcs.go lines 151 to 157): it keeps the first Recursive-typed option and
stops (the loop breaks after the first match). -/
def filterRecursiveOpts : List IterOption → List IterOption
  | [] => []
  | o :: rest =>
    if o.optType = RecursiveType then [o] else filterRecursiveOpts rest

/-- GcsIter models gcs.Bucket.Iter (gcs.go lines 149 to 162): it forwards
the filtered options to IterWithAttributes with a callback that passes only
the entry name on to the caller's callback.  The result is the exact
sequence of names the caller's callback receives, with the returned
error. -/
def gcsIter (objs : List GcsObject) (cancelled : Bool) (dir : Str)
    (f : Str → Option GError) (opts : List IterOption) : List Str × Option GError :=
  let r := gcsIterWithAttributes objs cancelled dir (fun attrs => f attrs.name)
    (filterRecursiveOpts opts)
  (r.1.map (fun attrs => attrs.name), r.2)

/-- GcsExists models gcs.Bucket.Exists (gcs.go lines 194 to 201) as a
function of the outcome of the underlying Attrs lookup: nil error yields
(true, nil); the storage.ErrObjectNotExist sentinel is collapsed to
(false, nil); any other error is surfaced as (false, err). -/
def gcsExists (lookup : Except GError ObjectAttributes) : Bool × Option GError :=
  match lookup with
  | .ok _ => (true, none)
  | .error e => if e = .objectNotExist then (false, none) else (false, some e)

/-- ReadAll models io.Copy of the caller's stream into the GCS writer: the
chunks are concatenated until the first read error, which aborts the
copy. -/
def readAll : List (Except GError Str) → Except GError Str
  | [] => .ok []
  | .error e :: _ => .error e
  | .ok c :: rest => (readAll rest).map (c ++ ·)

/-- UpsertObject replaces the named object's content and timestamp or
appends a new object: the committed value of the key after a successful
writer Close. -/
def upsertObject (objs : List GcsObject) (name : Str) (data : Str) (u : Int) :
    List GcsObject :=
  if objs.any (fun o => o.name = name) then
    objs.map (fun o => if o.name = name then ⟨name, u, data⟩ else o)
  else objs ++ [⟨name, u, data⟩]

/-- GcsUpload models gcs.Bucket.Upload (gcs.go lines 204 to 211) over the
external GCS writer.  Modelled from the spec: the writer buffers everything
and the object becomes visible only when Close succeeds, so a copy error or
a cancelled context leaves the bucket unchanged.  The upload timestamp is
the parameter now. -/
def gcsUpload (objs : List GcsObject) (cancelled : Bool) (name : Str)
    (stream : List (Except GError Str)) (now : Int) : List GcsObject × Option GError :=
  if cancelled then (objs, some .canceled)
  else
    match readAll stream with
    | .error e => (objs, some e)
    | .ok data => (upsertObject objs name data now, none)

/-- GcsConfig models gcs.Config: the bucket name and the optional service
account JSON. -/
structure GcsConfig where
  bucket : Str
  serviceAccount : Str := []
  deriving DecidableEq, Repr

/-- GcsBucket models the constructed gcs.Bucket value: the field the
verified claims read is the stored bucket name. -/
structure GcsBucket where
  name : Str
  deriving DecidableEq, Repr

/-- GcsName models gcs.Bucket.Name (gcs.go lines 90 to 92). -/
def gcsName (b : GcsBucket) : Str := b.name

/-- NewBucketWithConfig models gcs.NewBucketWithConfig (gcs.go lines 56 to
87).  The external effects are parameters: credsOk is whether
CredentialsFromJSON succeeds, clientOk whether storage.NewClient succeeds.
The second component records whether a backend client was created. -/
def newBucketWithConfig (gc : GcsConfig) (credsOk clientOk : Bool) :
    Except GError GcsBucket × Bool :=
  if gc.bucket = [] then (.error .missingBucketName, false)
  else if gc.serviceAccount ≠ [] ∧ credsOk = false then (.error .credentialsError, false)
  else if clientOk = false then (.error .clientError, false)
  else (.ok { name := gc.bucket }, true)

/-- FsNode models one node of the filesystem tree under the bucket root:
a regular file with its content and modification time, or a directory with
its named entries.  Modelled from the spec: the filesystem provider's
source is not under src/; the on-disk directory tree is the sole source of
truth for which keys exist. -/
inductive FsNode where
  | file (content : Str) (mtime : Int)
  | dir (entries : List (Str × FsNode))

/-- FsDir is the entry list of one directory. -/
abbrev FsDir := List (Str × FsNode)

/-- LookupEntry finds the node stored under a name inside a directory. -/
def lookupEntry (d : FsDir) (n : Str) : Option FsNode :=
  match d with
  | [] => none
  | (m, node) :: rest => if m = n then some node else lookupEntry rest n

/-- RemoveEntry removes the named entry from a directory. -/
def removeEntry (d : FsDir) (n : Str) : FsDir :=
  match d with
  | [] => []
  | (m, node) :: rest => if m = n then rest else (m, node) :: removeEntry rest n

/-- ReplaceEntry overwrites the named entry of a directory with a new
node, appending it when absent. -/
def replaceEntry (d : FsDir) (n : Str) (node : FsNode) : FsDir :=
  match d with
  | [] => [(n, node)]
  | (m, old) :: rest =>
    if m = n then (m, node) :: rest else (m, old) :: replaceEntry rest n node

/-- SplitSlash splits a key into its slash-separated path segments. -/
def splitSlash (s : Str) : List Str :=
  match s with
  | [] => [[]]
  | c :: cs =>
    match splitSlash cs with
    | [] => [[]]
    | r :: rs => if c = '/' then [] :: r :: rs else (c :: r) :: rs

/-- FindNode resolves a segment path inside a directory tree. -/
def findNode (d : FsDir) : List Str → Option FsNode
  | [] => some (.dir d)
  | seg :: rest =>
    match lookupEntry d seg with
    | none => none
    | some (.file c m) => if rest = [] then some (.file c m) else none
    | some (.dir sub) => findNode sub rest

/-- InsertFile writes a file at the given segment path, creating the
intermediate directories on demand.  Modelled from the spec: a key whose
path collides with an existing directory, or that descends through an
existing file, is a backend error, not a silent merge. -/
def insertFile (d : FsDir) (path : List Str) (content : Str) (mt : Int) :
    Except GError FsDir :=
  match path with
  | [] => .error (.ioErr 0)
  | [seg] =>
    match lookupEntry d seg with
    | some (.dir _) => .error (.ioErr 1)
    | _ => .ok (replaceEntry d seg (.file content mt))
  | seg :: rest =>
    match lookupEntry d seg with
    | some (.file _ _) => .error (.ioErr 2)
    | some (.dir sub) =>
      (insertFile sub rest content mt).map (fun sub2 => replaceEntry d seg (.dir sub2))
    | none =>
      (insertFile [] rest content mt).map (fun sub2 => replaceEntry d seg (.dir sub2))

/-- DelPrune removes the file at the given segment path and prunes every
ancestor directory left empty, stopping at the first non-empty ancestor
(the parent that still holds a sibling keeps its entry, so no ancestor
above it becomes empty).  Modelled from the spec, section 4.4. -/
def delPrune (d : FsDir) : List Str → Except GError FsDir
  | [] => .error .notFound
  | [seg] =>
    match lookupEntry d seg with
    | some (.file _ _) => .ok (removeEntry d seg)
    | _ => .error .notFound
  | seg :: rest =>
    match lookupEntry d seg with
    | some (.dir sub) =>
      (delPrune sub rest).map (fun sub2 =>
        match sub2 with
        | [] => removeEntry d seg
        | _ => replaceEntry d seg (.dir sub2))
    | _ => .error .notFound

/-- FsGet models the filesystem provider's Get.  Modelled from the spec:
the operation first observes an already-cancelled context and returns the
cancellation error verbatim; otherwise it reads the file mapped from the
key, failing NotFound when the key is absent. -/
def fsGet (root : FsDir) (cancelled : Bool) (key : Str) : Except GError Str :=
  if cancelled then .error .canceled
  else
    match findNode root (splitSlash key) with
    | some (.file c _) => .ok c
    | _ => .error .notFound

/-- FsGetRange models the filesystem provider's GetRange.  Modelled from
the spec: as fsGet, returning the requested slice of the content. -/
def fsGetRange (root : FsDir) (cancelled : Bool) (key : Str) (off len : Nat) :
    Except GError Str :=
  if cancelled then .error .canceled
  else
    match findNode root (splitSlash key) with
    | some (.file c _) => .ok ((c.drop off).take len)
    | _ => .error .notFound

/-- FsAttributes models the filesystem provider's Attributes.  Modelled
from the spec: size and last-modified of the file, NotFound when absent,
the cancellation error when the context is already cancelled. -/
def fsAttributes (root : FsDir) (cancelled : Bool) (key : Str) :
    Except GError ObjectAttributes :=
  if cancelled then .error .canceled
  else
    match findNode root (splitSlash key) with
    | some (.file c m) => .ok { size := c.length, lastModified := some m }
    | _ => .error .notFound

/-- FsExists models the filesystem provider's Exists.  Modelled from the
spec: NotFound is collapsed to false with a nil error; a cancelled context
is surfaced as an error. -/
def fsExists (root : FsDir) (cancelled : Bool) (key : Str) : Bool × Option GError :=
  if cancelled then (false, some .canceled)
  else
    match findNode root (splitSlash key) with
    | some (.file _ _) => (true, none)
    | _ => (false, none)

/-- FsUpload models the filesystem provider's Upload.  Modelled from the
spec: a cancelled context fails before any file is created and the tree is
returned unchanged; otherwise the stream content is materialized at the
key's path. -/
def fsUpload (root : FsDir) (cancelled : Bool) (key : Str) (content : Str)
    (mt : Int) : FsDir × Option GError :=
  if cancelled then (root, some .canceled)
  else
    match insertFile root (splitSlash key) content mt with
    | .ok r => (r, none)
    | .error e => (root, some e)

/-- FsDelete models the filesystem provider's Delete.  Modelled from the
spec: a cancelled context fails before any file is removed; otherwise the
file is removed and empty ancestors are pruned, the whole sequence under
the process-wide delete mutex. -/
def fsDelete (root : FsDir) (cancelled : Bool) (key : Str) : FsDir × Option GError :=
  if cancelled then (root, some .canceled)
  else
    match delPrune root (splitSlash key) with
    | .ok r => (r, none)
    | .error e => (root, some e)

/-- CollectDir models the filesystem provider's directory enumeration for
iteration.  Modelled from the spec, section 4.3: a regular file is
reported as a real key, with its modification time attached when
WithUpdatedAt was requested; a sub-directory is reported as a synthetic
directory key (prefix + name + separator) unless Recursive was requested,
in which case the provider descends and reports the leaf keys instead. -/
def collectDir (recursive withUpd : Bool) (pre : Str) : FsDir → List IterObjectAttributes
  | [] => []
  | (n, .file _ mt) :: rest =>
    { name := pre ++ n, lastModified := if withUpd then some mt else none } ::
      collectDir recursive withUpd pre rest
  | (n, .dir sub) :: rest =>
    (if recursive then collectDir recursive withUpd (pre ++ n ++ ['/']) sub
     else [{ name := pre ++ n ++ ['/'] }]) ++ collectDir recursive withUpd pre rest

/-- FsIter models the filesystem provider's Iter.  Modelled from the spec:
an already-cancelled context aborts before any entry with the cancellation
error verbatim; a prefix naming a non-existent directory yields zero
entries and no error; otherwise the entries of the prefix directory are
reported through the callback until the first callback error. -/
def fsIter (root : FsDir) (cancelled : Bool) (pre : Str)
    (f : IterObjectAttributes → Option GError) (opts : List IterOption) :
    List IterObjectAttributes × Option GError :=
  if cancelled then ([], some .canceled)
  else
    let params := applyIterOptions opts
    let target := if pre = [] then some (.dir root)
      else findNode root (splitSlash (trimSuffixSlash pre))
    match target with
    | some (.dir d) =>
      runCbs f (collectDir params.recursive params.lastModified (normalizeDir pre) d)
    | _ => ([], none)

/-- LeafFiles enumerates every file reachable in a directory tree together
with its full key (accumulated prefix plus name) and its own modification
time.  Per the spec, the on-disk tree is the sole source of truth, so this
list is the ground truth of which objects exist and when each was last
modified. -/
def leafFiles (pre : Str) : FsDir → List (Str × Int)
  | [] => []
  | (n, .file _ mt) :: rest => (pre ++ n, mt) :: leafFiles pre rest
  | (n, .dir sub) :: rest => leafFiles (pre ++ n ++ ['/']) sub ++ leafFiles pre rest

/-- FsLeafFiles is the ground truth of the files under an iteration prefix:
the leaf files of the directory the prefix resolves to, keyed exactly as
fsIter reports them. -/
def fsLeafFiles (root : FsDir) (pre : Str) : List (Str × Int) :=
  match (if pre = [] then some (FsNode.dir root)
    else findNode root (splitSlash (trimSuffixSlash pre))) with
  | some (.dir d) => leafFiles (normalizeDir pre) d
  | _ => []

/-- CbNone is a callback accepting every entry; it stands in for the
trivial callbacks of the repository's tests. -/
def cbNone : IterObjectAttributes → Option GError := fun _ => none

/-- CbStrNone is a name-only callback accepting every entry. -/
def cbStrNone : Str → Option GError := fun _ => none

/-- FindUnsupported returns some unsupported type whenever the options list
holds one. -/
theorem findUnsupported_some_of_mem (supported : List IterOptionType)
    (options : List IterOption) (h : ∃ o ∈ options, o.optType ∉ supported) :
    ∃ t, findUnsupported supported options = some t ∧ t ∉ supported := by
  induction options with
  | nil => simp at h
  | cons o rest ih =>
    by_cases ho : o.optType ∈ supported
    · have hrest : ∃ o2 ∈ rest, o2.optType ∉ supported := by
        rcases h with ⟨o2, hmem, hns⟩
        rcases List.mem_cons.mp hmem with rfl | hm
        · exact absurd ho hns
        · exact ⟨o2, hm, hns⟩
      rcases ih hrest with ⟨t, ht, hts⟩
      exact ⟨t, by simp [findUnsupported, ho, ht], hts⟩
    · exact ⟨o.optType, by simp [findUnsupported, ho], ho⟩

/-- Every callback invocation recorded by runCbs is one of the fed
values. -/
theorem mem_of_runCbs {α : Type} (f : α → Option GError) (l : List α) :
    ∀ a ∈ (runCbs f l).1, a ∈ l := by
  induction l with
  | nil => simp [runCbs]
  | cons x rest ih =>
    intro a ha
    simp only [runCbs] at ha
    cases hfx : f x with
    | some err =>
      rw [hfx] at ha
      simp only [List.mem_singleton] at ha
      simp [ha]
    | none =>
      rw [hfx] at ha
      simp only [List.mem_cons] at ha
      rcases ha with rfl | hm
      · simp
      · simp [ih a hm]

/-- RollUp of a bucket with no object under the prefix is empty. -/
theorem rollUp_eq_nil (pre : Str) (objs : List GcsObject)
    (h : ∀ o ∈ objs, pre.isPrefixOf o.name = false) :
    ∀ seen, rollUp pre seen objs = [] := by
  induction objs with
  | nil => intro seen; rfl
  | cons o rest ih =>
    intro seen
    have ho := h o (by simp)
    have hrest : ∀ o2 ∈ rest, pre.isPrefixOf o2.name = false :=
      fun o2 hm => h o2 (by simp [hm])
    simp [rollUp, ho, ih hrest]

/-- QueryObjects of a bucket with no object under the prefix is empty for
either delimiter. -/
theorem queryObjects_eq_nil (objs : List GcsObject) (pre delim : Str)
    (h : ∀ o ∈ objs, pre.isPrefixOf o.name = false) :
    queryObjects objs pre delim = [] := by
  by_cases hd : delim = []
  · have hf : objs.filter (fun o => pre.isPrefixOf o.name) = [] := by
      rw [List.filter_eq_nil_iff]
      intro o hm
      simp [h o hm]
    simp [queryObjects, hd, hf]
  · simp [queryObjects, hd, rollUp_eq_nil pre objs h []]

/-- Every option kept by the Iter filter is a Recursive-typed option of the
caller. -/
theorem filterRecursiveOpts_sub (opts : List IterOption) :
    ∀ o ∈ filterRecursiveOpts opts, o ∈ opts ∧ o.optType = RecursiveType := by
  induction opts with
  | nil => simp [filterRecursiveOpts]
  | cons x rest ih =>
    intro o ho
    by_cases hx : x.optType = RecursiveType
    · simp only [filterRecursiveOpts, if_pos hx, List.mem_singleton] at ho
      subst ho
      exact ⟨by simp, hx⟩
    · simp only [filterRecursiveOpts, if_neg hx] at ho
      rcases ih o ho with ⟨hm, ht⟩
      exact ⟨by simp [hm], ht⟩

/-- Every Recursive-typed option of the caller is kept by the Iter
filter. -/
theorem mem_filterRecursiveOpts (opts : List IterOption) :
    ∀ o ∈ opts, o.optType = RecursiveType → o ∈ filterRecursiveOpts opts := by
  induction opts with
  | nil => simp
  | cons x rest ih =>
    intro o ho ht
    by_cases hx : x.optType = RecursiveType
    · have hox : o = x := by
        cases o; cases x
        simp_all
      simp [filterRecursiveOpts, hx, hox]
    · rcases List.mem_cons.mp ho with rfl | hm
      · exact absurd ht hx
      · simp only [filterRecursiveOpts, if_neg hx]
        exact ih o hm ht

/-- C1: every call to IterWithAttributes whose options list contains an
option whose type is not in the backend's SupportedIterOptions set fails
with an error wrapping ErrOptionNotSupported, and the callback is invoked
zero times. -/
theorem gcs_iter_unsupported_option_fails (objs : List GcsObject) (cancelled : Bool)
    (dir : Str) (f : IterObjectAttributes → Option GError) (options : List IterOption)
    (h : ∃ o ∈ options, o.optType ∉ gcsSupportedIterOptions) :
    (gcsIterWithAttributes objs cancelled dir f options).1 = [] ∧
    ∃ t, t ∉ gcsSupportedIterOptions ∧
      (gcsIterWithAttributes objs cancelled dir f options).2 =
        some (GError.optionNotSupported t) := by
  rcases findUnsupported_some_of_mem gcsSupportedIterOptions options h with ⟨t, ht, hts⟩
  exact ⟨by simp [gcsIterWithAttributes, ht],
    t, hts, by simp [gcsIterWithAttributes, ht]⟩

/-- Witness for C1 at the concrete unsupported option type 2. -/
theorem gcs_iter_unsupported_option_fails_witness :
    (gcsIterWithAttributes [] false [] cbNone [⟨2⟩]).1 = [] ∧
    ∃ t, t ∉ gcsSupportedIterOptions ∧
      (gcsIterWithAttributes [] false [] cbNone [⟨2⟩]).2 =
        some (GError.optionNotSupported t) :=
  gcs_iter_unsupported_option_fails [] false [] cbNone [⟨2⟩]
    ⟨⟨2⟩, by decide, by decide⟩

/-- C2: Iter forwards to IterWithAttributes exactly the Recursive-typed
subset of the caller's options, never the WithUpdatedAt option, and invokes
the caller's callback with the key name of each entry IterWithAttributes
produces, in the same order. -/
theorem gcs_iter_forwards_recursive_only (objs : List GcsObject) (cancelled : Bool)
    (dir : Str) (f : Str → Option GError) (opts : List IterOption) :
    (∀ o ∈ filterRecursiveOpts opts, o ∈ opts ∧ o.optType = RecursiveType) ∧
    (∀ o ∈ opts, o.optType = RecursiveType → o ∈ filterRecursiveOpts opts) ∧
    (∀ o ∈ filterRecursiveOpts opts, o ≠ withUpdatedAt) ∧
    gcsIter objs cancelled dir f opts =
      ((gcsIterWithAttributes objs cancelled dir (fun attrs => f attrs.name)
          (filterRecursiveOpts opts)).1.map (fun attrs => attrs.name),
        (gcsIterWithAttributes objs cancelled dir (fun attrs => f attrs.name)
          (filterRecursiveOpts opts)).2) := by
  refine ⟨filterRecursiveOpts_sub opts, mem_filterRecursiveOpts opts, ?_, rfl⟩
  intro o ho heq
  have ht := (filterRecursiveOpts_sub opts o ho).2
  rw [heq] at ht
  exact absurd ht (by decide)

/-- Witness for C2: the Recursive option survives the filter of a mixed
options list. -/
theorem gcs_iter_forwards_recursive_only_witness :
    withRecursiveIter ∈ filterRecursiveOpts [withUpdatedAt, withRecursiveIter] :=
  (gcs_iter_forwards_recursive_only [] false [] cbStrNone
      [withUpdatedAt, withRecursiveIter]).2.1 withRecursiveIter (by decide) (by decide)

/-- BktC3 is the bucket of C3: exactly the keys a/x and a/b/y. -/
def bktC3 : List GcsObject :=
  [{ name := ['a', '/', 'x'], updated := 5 },
   { name := ['a', '/', 'b', '/', 'y'], updated := 7 }]

/-- C3: over the bucket holding exactly a/x and a/b/y, non-recursive
iteration over prefix a/ yields exactly the key a/x and the synthetic
directory marker a/b/, while recursive iteration yields exactly the real
keys a/x and a/b/y and never a directory marker. -/
theorem gcs_iter_marker_vs_recursive_example :
    ((gcsIterWithAttributes bktC3 false ['a', '/'] cbNone []).1.map
        (fun a => a.name) = [['a', '/', 'x'], ['a', '/', 'b', '/']] ∧
      (gcsIterWithAttributes bktC3 false ['a', '/'] cbNone []).2 = none) ∧
    ((gcsIterWithAttributes bktC3 false ['a', '/'] cbNone [withRecursiveIter]).1.map
        (fun a => a.name) = [['a', '/', 'x'], ['a', '/', 'b', '/', 'y']] ∧
      (gcsIterWithAttributes bktC3 false ['a', '/'] cbNone [withRecursiveIter]).2
        = none) := by
  decide

/-- C4: every operation invoked with an already-cancelled context returns
the context's cancellation error verbatim and leaves the bucket state
unchanged; iteration invokes the callback zero times. -/
theorem cancelled_context_returns_canceled (root : FsDir) (key pre : Str)
    (off len : Nat) (content : Str) (mt : Int)
    (f : IterObjectAttributes → Option GError) (opts : List IterOption)
    (objs : List GcsObject) (dir : Str) (g : IterObjectAttributes → Option GError)
    (opts2 : List IterOption)
    (h : findUnsupported gcsSupportedIterOptions opts2 = none) :
    fsGet root true key = .error .canceled ∧
    fsGetRange root true key off len = .error .canceled ∧
    fsAttributes root true key = .error .canceled ∧
    fsExists root true key = (false, some .canceled) ∧
    fsUpload root true key content mt = (root, some .canceled) ∧
    fsDelete root true key = (root, some .canceled) ∧
    fsIter root true pre f opts = ([], some .canceled) ∧
    gcsIterWithAttributes objs true dir g opts2 = ([], some .canceled) := by
  refine ⟨rfl, rfl, rfl, rfl, rfl, rfl, rfl, ?_⟩
  simp [gcsIterWithAttributes, h]

/-- Witness for C4 at a concrete bucket, key and option list. -/
theorem cancelled_context_returns_canceled_witness :
    gcsIterWithAttributes [] true ['d'] cbNone [] = ([], some .canceled) :=
  (cancelled_context_returns_canceled [] ['k'] ['p'] 0 1 ['c'] 3 cbNone []
      [] ['d'] cbNone [] rfl).2.2.2.2.2.2.2

/-- C5: Exists never surfaces a NotFound-classified error: an absent object
yields (false, nil), a present object yields (true, nil), and any other
lookup failure is surfaced as an error for which IsObjNotFoundErr is
false. -/
theorem gcs_exists_collapses_notFound (lookup : Except GError ObjectAttributes) :
    (∀ e, (gcsExists lookup).2 = some e → isObjNotFoundErr e = false) ∧
    (lookup = .error .objectNotExist → gcsExists lookup = (false, none)) ∧
    (∀ a, lookup = .ok a → gcsExists lookup = (true, none)) := by
  cases lookup with
  | ok a =>
    refine ⟨?_, ?_, ?_⟩
    · intro e he
      simp [gcsExists] at he
    · intro hcontra
      simp at hcontra
    · intro a2 h
      simp [gcsExists]
  | error e =>
    refine ⟨?_, ?_, ?_⟩
    · intro e2 he
      by_cases hne : e = .objectNotExist
      · simp [gcsExists, hne] at he
      · simp only [gcsExists, if_neg hne] at he
        simp only [Option.some.injEq] at he
        subst he
        cases e
        all_goals first
          | rfl
          | exact absurd rfl hne
    · intro hmatch
      have h1 : e = .objectNotExist := by
        injection hmatch
      subst h1
      simp [gcsExists]
    · intro a h
      simp at h
  
/-- Witness for C5: a surfaced generic lookup error is not classified as
NotFound. -/
theorem gcs_exists_collapses_notFound_witness :
    isObjNotFoundErr (GError.ioErr 0) = false :=
  (gcs_exists_collapses_notFound (.error (.ioErr 0))).1 (GError.ioErr 0) (by decide)

/-- C6: Upload succeeds only after the full stream content has been
materialized as the committed value of the key; on any failure, including a
read error partway through the stream, the bucket is unchanged. -/
theorem gcs_upload_commit_or_unchanged (objs : List GcsObject) (cancelled : Bool)
    (name : Str) (stream : List (Except GError Str)) (now : Int) :
    ((gcsUpload objs cancelled name stream now).2 = none →
      ∃ data, readAll stream = .ok data ∧
        (gcsUpload objs cancelled name stream now).1
          = upsertObject objs name data now) ∧
    ((gcsUpload objs cancelled name stream now).2 ≠ none →
      (gcsUpload objs cancelled name stream now).1 = objs) := by
  cases cancelled with
  | false =>
    cases hr : readAll stream with
    | error e =>
      constructor
      · intro h
        simp [gcsUpload, hr] at h
      · intro _
        simp [gcsUpload, hr]
    | ok data =>
      constructor
      · intro _
        exact ⟨data, rfl, by simp [gcsUpload, hr]⟩
      · intro h
        exact absurd (by simp [gcsUpload, hr] : (gcsUpload objs false name stream now).2 = none) h
  | true =>
    constructor
    · intro h
      simp [gcsUpload] at h
    · intro _
      simp [gcsUpload]

/-- Witness for C6: a two-chunk stream is committed whole. -/
theorem gcs_upload_commit_or_unchanged_witness :
    ∃ data, readAll [Except.ok ['a'], Except.ok ['b']] = .ok data ∧
      (gcsUpload [] false ['k'] [Except.ok ['a'], Except.ok ['b']] 3).1
        = upsertObject [] ['k'] data 3 :=
  (gcs_upload_commit_or_unchanged [] false ['k']
    [Except.ok ['a'], Except.ok ['b']] 3).1 rfl

/-- Folding further options never clears an already-set lastModified
flag. -/
theorem foldl_applyIterOption_lm_mono (opts : List IterOption) :
    ∀ p : IterParams, p.lastModified = true →
      (opts.foldl applyIterOption p).lastModified = true := by
  induction opts with
  | nil => intro p hp; simpa using hp
  | cons o rest ih =>
    intro p hp
    rw [List.foldl_cons]
    apply ih
    unfold applyIterOption
    split
    · exact hp
    · split
      · rfl
      · exact hp

/-- An options list containing the WithUpdatedAt option applies to
lastModified = true. -/
theorem applyIterOptions_lastModified_of_mem (opts : List IterOption)
    (h : withUpdatedAt ∈ opts) :
    (applyIterOptions opts).lastModified = true := by
  have hgen : ∀ (l : List IterOption) (p : IterParams), withUpdatedAt ∈ l →
      (l.foldl applyIterOption p).lastModified = true := by
    intro l
    induction l with
    | nil => intro p hp; simp at hp
    | cons o rest ih =>
      intro p hp
      rw [List.foldl_cons]
      rcases List.mem_cons.mp hp with heq | hm
      · rw [← heq]
        apply foldl_applyIterOption_lm_mono
        simp [applyIterOption, withUpdatedAt, UpdatedAtType, RecursiveType]
      · exact ih (applyIterOption p o) hm
  exact hgen opts {} h

/-- An options list without any UpdatedAt-typed option applies to
lastModified = false. -/
theorem applyIterOptions_lastModified_of_not_mem (opts : List IterOption)
    (h : ∀ o ∈ opts, o.optType ≠ UpdatedAtType) :
    (applyIterOptions opts).lastModified = false := by
  have hgen : ∀ (l : List IterOption) (p : IterParams),
      (∀ o ∈ l, o.optType ≠ UpdatedAtType) →
      (l.foldl applyIterOption p).lastModified = p.lastModified := by
    intro l
    induction l with
    | nil => intro p _; rfl
    | cons o rest ih =>
      intro p hp
      rw [List.foldl_cons, ih (applyIterOption p o) (fun o2 hm => hp o2 (by simp [hm]))]
      by_cases h0 : o.optType = RecursiveType
      · simp [applyIterOption, h0]
      · by_cases h1 : o.optType = UpdatedAtType
        · exact absurd h1 (hp o (by simp))
        · simp [applyIterOption, h0, h1]
  exact hgen opts {} h

/-- Every segment the delimiter roll-up extracts ends with the
separator. -/
theorem segUptoSlash?_getLast (s : Str) :
    ∀ seg, segUptoSlash? s = some seg → seg.getLast? = some '/' := by
  induction s with
  | nil => intro seg h; simp [segUptoSlash?] at h
  | cons c cs ih =>
    intro seg h
    by_cases hc : c = '/'
    · simp only [segUptoSlash?, if_pos hc, Option.some.injEq] at h
      rw [← h]
      rfl
    · simp only [segUptoSlash?, if_neg hc] at h
      cases hcs : segUptoSlash? cs with
      | none => rw [hcs] at h; simp at h
      | some seg2 =>
        rw [hcs] at h
        simp only [Option.map_some', Option.some.injEq] at h
        rw [← h]
        have h2 := ih seg2 hcs
        cases seg2 with
        | nil => simp at h2
        | cons d ds => rw [List.getLast?_cons_cons]; exact h2

/-- A list extended with the separator ends with the separator. -/
theorem getLast?_append_slash (l : Str) : (l ++ ['/']).getLast? = some '/' := by
  rw [List.getLast?_append_of_ne_nil _ (by simp : (['/'] : Str) ≠ [])]
  rfl

/-- Every entry of the delimiter roll-up is either a real object entry,
carrying that object's own Updated time, or a synthetic directory entry
whose key ends with the separator. -/
theorem mem_rollUp_cases (pre : Str) :
    ∀ (objs : List GcsObject) (seen : List Str), ∀ e ∈ rollUp pre seen objs,
      (∃ o ∈ objs, e = ⟨o.name, [], o.updated⟩) ∨
      (∃ seg, e = ⟨[], pre ++ seg, 0⟩ ∧ seg.getLast? = some '/') := by
  intro objs
  induction objs with
  | nil =>
    intro seen e he
    simp [rollUp] at he
  | cons o rest ih =>
    intro seen e he
    cases hpre : pre.isPrefixOf o.name with
    | false =>
      simp only [rollUp, hpre, Bool.false_eq_true, if_false] at he
      rcases ih seen e he with ⟨o2, ho2, he2⟩ | hmark
      · exact Or.inl ⟨o2, by simp [ho2], he2⟩
      · exact Or.inr hmark
    | true =>
      cases hseg : segUptoSlash? (o.name.drop pre.length) with
      | none =>
        simp only [rollUp, hpre, if_true, hseg, List.mem_cons] at he
        rcases he with rfl | hm
        · exact Or.inl ⟨o, by simp, rfl⟩
        · rcases ih seen e hm with ⟨o2, ho2, he2⟩ | hmark
          · exact Or.inl ⟨o2, by simp [ho2], he2⟩
          · exact Or.inr hmark
      | some seg =>
        by_cases hseen : pre ++ seg ∈ seen
        · simp only [rollUp, hpre, if_true, hseg, if_pos hseen] at he
          rcases ih seen e he with ⟨o2, ho2, he2⟩ | hmark
          · exact Or.inl ⟨o2, by simp [ho2], he2⟩
          · exact Or.inr hmark
        · simp only [rollUp, hpre, if_true, hseg, if_neg hseen, List.mem_cons] at he
          rcases he with rfl | hm
          · exact Or.inr ⟨seg, rfl, segUptoSlash?_getLast _ seg hseg⟩
          · rcases ih ((pre ++ seg) :: seen) e hm with ⟨o2, ho2, he2⟩ | hmark
            · exact Or.inl ⟨o2, by simp [ho2], he2⟩
            · exact Or.inr hmark

/-- With WithUpdatedAt in effect, every entry the filesystem enumeration
reports is either a real file key carrying exactly that file's own
modification time (a member of the leafFiles ground truth) or a synthetic
directory marker ending in the separator with no timestamp. -/
theorem collectDir_upd_cases (recursive : Bool) (pre : Str) (d : FsDir) :
    ∀ a ∈ collectDir recursive true pre d,
      (∃ mt, a.lastModified = some mt ∧ (a.name, mt) ∈ leafFiles pre d) ∨
      (a.lastModified = none ∧ a.name.getLast? = some '/') := by
  induction pre, d using collectDir.induct recursive true with
  | case1 p => simp [collectDir]
  | case2 p n c mt rest ih =>
    intro a ha
    simp only [collectDir, List.mem_cons] at ha
    rcases ha with rfl | hm
    · exact Or.inl ⟨mt, by simp, by simp [leafFiles]⟩
    · rcases ih a hm with ⟨mt2, hlm, hmem⟩ | hmark
      · exact Or.inl ⟨mt2, hlm, by simp [leafFiles, hmem]⟩
      · exact Or.inr hmark
  | case3 p n sub rest ih1 ih2 =>
    intro a ha
    simp only [collectDir, List.mem_append] at ha
    rcases ha with h | h
    · split at h
      · rcases ih1 a h with ⟨mt2, hlm, hmem⟩ | hmark
        · refine Or.inl ⟨mt2, hlm, ?_⟩
          simp only [leafFiles, List.mem_append]
          exact Or.inl hmem
        · exact Or.inr hmark
      · simp only [List.mem_singleton] at h
        subst h
        refine Or.inr ⟨rfl, ?_⟩
        simp only []
        exact getLast?_append_slash (p ++ n)
    · rcases ih2 a h with ⟨mt2, hlm, hmem⟩ | hmark
      · refine Or.inl ⟨mt2, hlm, ?_⟩
        simp only [leafFiles, List.mem_append]
        exact Or.inr hmem
      · exact Or.inr hmark

/-- Without WithUpdatedAt, every entry the filesystem enumeration reports
carries no last-modified timestamp. -/
theorem collectDir_no_upd (recursive : Bool) (pre : Str) (d : FsDir) :
    ∀ a ∈ collectDir recursive false pre d, a.lastModified = none := by
  induction pre, d using collectDir.induct recursive false with
  | case1 p => simp [collectDir]
  | case2 p n c mt rest ih =>
    intro a ha
    simp only [collectDir, List.mem_cons] at ha
    rcases ha with h | h
    · simp [h]
    · exact ih a h
  | case3 p n sub rest ih1 ih2 =>
    intro a ha
    simp only [collectDir, List.mem_append] at ha
    rcases ha with h | h
    · split at h
      · exact ih1 a h
      · simp only [List.mem_singleton] at h
        simp [h]
    · exact ih2 a h

/-- C7: for every iteration invoked with the WithUpdatedAt option, each
reported entry either names a stored object and carries exactly the
backend's own modification timestamp for that object (the object's Updated
time for GCS, the file's mtime for the filesystem provider) or is a
synthetic directory marker, not an object; for every iteration invoked
without attribute options, each reported entry carries the empty/default
attributes. -/
theorem iter_updatedAt_attributes (objs : List GcsObject) (cancelled : Bool)
    (dir : Str) (f : IterObjectAttributes → Option GError) (opts : List IterOption)
    (root : FsDir) (pre : Str) (g : IterObjectAttributes → Option GError) :
    (withUpdatedAt ∈ opts →
      ∀ a ∈ (gcsIterWithAttributes objs cancelled dir f opts).1,
        (∃ o ∈ objs, a.name = o.name ∧ a.lastModified = some o.updated) ∨
        a.name.getLast? = some '/') ∧
    ((∀ o2 ∈ opts, o2.optType ≠ UpdatedAtType) →
      ∀ a ∈ (gcsIterWithAttributes objs cancelled dir f opts).1,
        a.lastModified = none) ∧
    (withUpdatedAt ∈ opts →
      ∀ a ∈ (fsIter root cancelled pre g opts).1,
        (∃ mt, a.lastModified = some mt ∧ (a.name, mt) ∈ fsLeafFiles root pre) ∨
        (a.lastModified = none ∧ a.name.getLast? = some '/')) ∧
    ((∀ o2 ∈ opts, o2.optType ≠ UpdatedAtType) →
      ∀ a ∈ (fsIter root cancelled pre g opts).1,
        a.lastModified = none) := by
  refine ⟨?_, ?_, ?_, ?_⟩
  · intro hopt a ha
    cases hfind : findUnsupported gcsSupportedIterOptions opts with
    | some t => simp [gcsIterWithAttributes, hfind] at ha
    | none =>
      cases cancelled with
      | true => simp [gcsIterWithAttributes, hfind] at ha
      | false =>
        have hred : (gcsIterWithAttributes objs false dir f opts).1
            = (runCbs f ((queryObjects objs (normalizeDir dir)
                (if (applyIterOptions opts).recursive then [] else ['/'])).map
              (toIterAttrs (applyIterOptions opts)))).1 := by
          unfold gcsIterWithAttributes
          rw [hfind]
          rfl
        rw [hred] at ha
        have hlm := applyIterOptions_lastModified_of_mem opts hopt
        have hm := mem_of_runCbs _ _ a ha
        cases hrec : (applyIterOptions opts).recursive with
        | true =>
          rw [hrec] at hm
          simp only [if_true, queryObjects, List.map_map, List.mem_map,
            List.mem_filter, Function.comp] at hm
          obtain ⟨o, ⟨ho, _⟩, rfl⟩ := hm
          exact Or.inl ⟨o, ho, by simp [toIterAttrs], by simp [toIterAttrs, hlm]⟩
        | false =>
          rw [hrec] at hm
          simp only [Bool.false_eq_true, if_false, queryObjects, List.mem_map] at hm
          obtain ⟨e, he, rfl⟩ := hm
          rcases mem_rollUp_cases (normalizeDir dir) objs [] e he with
            ⟨o, ho, rfl⟩ | ⟨seg, rfl, hsl⟩
          · exact Or.inl ⟨o, ho, by simp [toIterAttrs], by simp [toIterAttrs, hlm]⟩
          · right
            have hne : seg ≠ [] := by
              intro hseg0
              rw [hseg0] at hsl
              simp at hsl
            simp only [toIterAttrs, List.append_nil]
            rw [List.getLast?_append_of_ne_nil _ hne]
            exact hsl
  · intro hopt a ha
    cases hfind : findUnsupported gcsSupportedIterOptions opts with
    | some t => simp [gcsIterWithAttributes, hfind] at ha
    | none =>
      cases cancelled with
      | true => simp [gcsIterWithAttributes, hfind] at ha
      | false =>
        have hred : (gcsIterWithAttributes objs false dir f opts).1
            = (runCbs f ((queryObjects objs (normalizeDir dir)
                (if (applyIterOptions opts).recursive then [] else ['/'])).map
              (toIterAttrs (applyIterOptions opts)))).1 := by
          unfold gcsIterWithAttributes
          rw [hfind]
          rfl
        rw [hred] at ha
        have hlm := applyIterOptions_lastModified_of_not_mem opts hopt
        have hm := mem_of_runCbs _ _ a ha
        rcases List.mem_map.mp hm with ⟨e, he, rfl⟩
        simp [toIterAttrs, hlm]
  · intro hopt a ha
    cases cancelled with
    | true => simp [fsIter] at ha
    | false =>
      have hlm := applyIterOptions_lastModified_of_mem opts hopt
      cases htgt : (if pre = [] then some (FsNode.dir root)
          else findNode root (splitSlash (trimSuffixSlash pre))) with
      | none => simp [fsIter, htgt] at ha
      | some node =>
        cases node with
        | file c mt => simp [fsIter, htgt] at ha
        | dir d =>
          have hred : (fsIter root false pre g opts).1
              = (runCbs g (collectDir (applyIterOptions opts).recursive
                  (applyIterOptions opts).lastModified (normalizeDir pre) d)).1 := by
            simp [fsIter, htgt]
          rw [hred] at ha
          have hm := mem_of_runCbs _ _ a ha
          rw [hlm] at hm
          have hfl : fsLeafFiles root pre = leafFiles (normalizeDir pre) d := by
            unfold fsLeafFiles
            rw [htgt]
          rcases collectDir_upd_cases (applyIterOptions opts).recursive
              (normalizeDir pre) d a hm with ⟨mt2, hl, hmem⟩ | hmark
          · refine Or.inl ⟨mt2, hl, ?_⟩
            rw [hfl]
            exact hmem
          · exact Or.inr hmark
  · intro hopt a ha
    cases cancelled with
    | true => simp [fsIter] at ha
    | false =>
      have hlm := applyIterOptions_lastModified_of_not_mem opts hopt
      cases htgt : (if pre = [] then some (FsNode.dir root)
          else findNode root (splitSlash (trimSuffixSlash pre))) with
      | none => simp [fsIter, htgt] at ha
      | some node =>
        cases node with
        | file c mt => simp [fsIter, htgt] at ha
        | dir d =>
          have hred : (fsIter root false pre g opts).1
              = (runCbs g (collectDir (applyIterOptions opts).recursive
                  (applyIterOptions opts).lastModified (normalizeDir pre) d)).1 := by
            simp [fsIter, htgt]
          rw [hred] at ha
          have hm := mem_of_runCbs _ _ a ha
          rw [hlm] at hm
          exact collectDir_no_upd (applyIterOptions opts).recursive (normalizeDir pre) d a hm

/-- Witness for C7: a file under the bucket root is reported carrying its
own stored mtime, a member of the leaf-file ground truth. -/
theorem iter_updatedAt_attributes_witness :
    (∃ mt, ({ name := ['a'], lastModified := some 4 } : IterObjectAttributes).lastModified
        = some mt ∧ ((['a'] : Str), mt) ∈ fsLeafFiles [(['a'], FsNode.file ['x'] 4)] []) ∨
    (({ name := ['a'], lastModified := some 4 } : IterObjectAttributes).lastModified = none ∧
      (['a'] : Str).getLast? = some '/') :=
  (iter_updatedAt_attributes [] false [] cbNone [withUpdatedAt]
      [(['a'], FsNode.file ['x'] 4)] [] cbNone).2.2.1 (by decide)
    { name := ['a'], lastModified := some 4 }
    (by simp [fsIter, cbNone, runCbs, collectDir, applyIterOptions, applyIterOption,
      withUpdatedAt, UpdatedAtType, RecursiveType, normalizeDir, trimSuffixSlash])

/-- C8: iteration over a prefix under which no stored key lies (including
the empty bucket) invokes the callback zero times and returns no error. -/
theorem iter_missing_dir_yields_nothing (objs : List GcsObject) (dir : Str)
    (f : IterObjectAttributes → Option GError) (opts : List IterOption)
    (hopts : findUnsupported gcsSupportedIterOptions opts = none)
    (h : ∀ o ∈ objs, (normalizeDir dir).isPrefixOf o.name = false) :
    gcsIterWithAttributes objs false dir f opts = ([], none) := by
  have e0 : queryObjects objs (normalizeDir dir) [] = [] :=
    queryObjects_eq_nil _ _ _ h
  have e1 : queryObjects objs (normalizeDir dir) ['/'] = [] :=
    queryObjects_eq_nil _ _ _ h
  simp only [gcsIterWithAttributes, hopts]
  cases hrec : (applyIterOptions opts).recursive <;>
    simp [hrec, e0, e1, runCbs]

/-- Witness for C8 at the empty bucket. -/
theorem iter_missing_dir_yields_nothing_witness :
    gcsIterWithAttributes [] false ['a'] cbNone [] = ([], none) :=
  iter_missing_dir_yields_nothing [] ['a'] cbNone [] rfl (by simp)

/-- RaceRoot is the C9 tree: keys subfolder/first and subfolder/second
under the shared directory subfolder. -/
def raceRoot : FsDir :=
  [("subfolder".data,
    FsNode.dir [("first".data, FsNode.file "first".data 0),
                ("second".data, FsNode.file "second".data 0)])]

/-- C9: deleting the two sibling keys concurrently is serialized by the
delete mutex, so the observable outcomes are the two sequential orders; in
both orders each delete returns success and the shared directory subfolder
is pruned away, leaving no stray empty directory. -/
theorem fs_delete_sibling_race :
    (fsDelete raceRoot false "subfolder/first".data).2 = none ∧
    (fsDelete (fsDelete raceRoot false "subfolder/first".data).1 false
      "subfolder/second".data).2 = none ∧
    (fsDelete (fsDelete raceRoot false "subfolder/first".data).1 false
      "subfolder/second".data).1 = [] ∧
    (fsDelete raceRoot false "subfolder/second".data).2 = none ∧
    (fsDelete (fsDelete raceRoot false "subfolder/second".data).1 false
      "subfolder/first".data).2 = none ∧
    (fsDelete (fsDelete raceRoot false "subfolder/second".data).1 false
      "subfolder/first".data).1 = [] :=
  ⟨rfl, rfl, rfl, rfl, rfl, rfl⟩

/-- C10: constructing a GCS bucket from a Config with an empty Bucket field
fails before any backend client is created; every successful construction
stores the non-empty configured name, which Name returns verbatim. -/
theorem new_bucket_requires_name (gc : GcsConfig) (credsOk clientOk : Bool) :
    (gc.bucket = [] →
      newBucketWithConfig gc credsOk clientOk = (.error .missingBucketName, false)) ∧
    (∀ b, (newBucketWithConfig gc credsOk clientOk).1 = .ok b →
      gc.bucket ≠ [] ∧ gcsName b = gc.bucket) := by
  constructor
  · intro hb
    simp [newBucketWithConfig, hb]
  · intro b h
    by_cases hb : gc.bucket = []
    · simp [newBucketWithConfig, hb] at h
    · refine ⟨hb, ?_⟩
      simp only [newBucketWithConfig, if_neg hb] at h
      split at h
      · simp at h
      · split at h
        · simp at h
        · simp only [Except.ok.injEq] at h
          subst h
          rfl

/-- Witness for C10: an empty bucket name is rejected with no client, and a
constructed bucket returns its configured name. -/
theorem new_bucket_requires_name_witness :
    newBucketWithConfig ⟨[], []⟩ true true = (.error .missingBucketName, false) ∧
    gcsName ⟨['a']⟩ = ['a'] :=
  ⟨(new_bucket_requires_name ⟨[], []⟩ true true).1 rfl,
   ((new_bucket_requires_name ⟨['a'], []⟩ true true).2 ⟨['a']⟩ rfl).2⟩
